import Mathlib

/-!
Shallow embedding of the bubbletea-stages repository (src/main.go and the
earlier variant src/unnamed/part_000).

The program is a sequential stage runner driven by a bubbletea event loop:
global state is the list `stages` and the cursor `stageIndex`; `runStage`
executes the current stage and emits a `stageCompleteMsg`; `model.Update`
processes messages, marking stages complete, advancing the cursor, and on a
recorded error writing the failure log and quitting.

Modelling choices:
  - A stage's `Action` is modelled by the error value it returns when invoked
    (`ActionResult : Option String`, `none` = nil error); `IsCompleteFunc` by
    the Bool it returns, `none` modelling a nil function pointer.
  - A Go panic (out-of-range index, calling a nil function) is modelled by
    `Option`: `none` = crash.
  - The globals (`stages`, `stageIndex`, `commandLog`) together with the tea
    model's `Error` field, the spinner phase, and the observable effects of
    `writeCommandLogFile` (lines printed to stdout, file content written) are
    bundled in `RunState`.  `invoked` records the indices whose `Action` was
    called, in call order, so that claims about actions never being invoked
    can be stated.
  - `os.Create` failure is modelled by the parameter `createErr : Option
    String`: `some msg` means creation fails with error text `msg`.
  - Wall-clock time is the abstract parameter `now` (the string
    `time.Now().UTC().String()` would produce).
-/

/-- One step in the deployment process (struct `Stage` in src/main.go).
`ActionResult` is the error `Action()` returns when called; `IsCompleteFuncResult`
is the Bool `IsCompleteFunc()` returns, `none` modelling a nil `IsCompleteFunc`. -/
structure Stage where
  Name : String := ""
  ActionResult : Option String := none
  IsCompleteFuncResult : Option Bool := none
  Error : Option String := none
  IsComplete : Bool := false
deriving Repr, DecidableEq

/-- The bundled mutable program state: the globals `stages`, `stageIndex`,
`commandLog`, the tea model's `Error` field (`mError`), the spinner's animation
phase, and the observable effects of `writeCommandLogFile`. -/
structure RunState where
  stages : List Stage
  stageIndex : Nat := 0
  commandLog : List String := []
  invoked : List Nat := []
  logWrites : Nat := 0
  printed : List String := []
  fileContent : Option String := none
  mError : Option String := none
  spinnerPhase : Nat := 0
deriving Repr, DecidableEq

/-- The messages model.Update dispatches on (src/main.go lines 102-131). -/
inductive Msg where
  | stageComplete
  | errMsg (e : String)
  | keyCtrlC
  | keyOther
  | startDeploy
  | spinnerTick
deriving Repr, DecidableEq

/-- The commands model.Update returns to the bubbletea runtime. -/
inductive Cmd where
  | quit
  | runStageC
  | tickC
  | noCmd
deriving Repr, DecidableEq

/-- Outcome of a whole run: `crashed` models a Go panic. -/
inductive Outcome where
  | succeeded
  | failed
  | crashed
deriving Repr, DecidableEq

/-- The banner line written repeatedly by writeCommandLogFile. -/
def banner : String :=
  "******************************************************************************\n"

/-- The text writeCommandLogFile writes into bubbletea-debug.log
(src/main.go lines 192-206), given the timestamp string, the command log and
the failing stage's error text. -/
def writeCommandLogFileContent (now : String) (commandLog : List String)
    (errText : String) : String :=
  "Ran at: " ++ now ++ "\n" ++
  banner ++
  "Human legible log of steps taken and commands run up to the point of failure:\n" ++
  banner ++
  String.join (commandLog.map (fun cmd => cmd ++ "\n")) ++
  "^ The above command is likely the one that caused the error!\n" ++
  "\n\n" ++
  banner ++
  "Complete log of the error that halted the deployment:\n" ++
  banner ++
  "\n\n" ++
  errText ++ "\n"

/-- writeCommandLogFile (src/main.go lines 182-207): if os.Create fails
(`createErr = some msg`) the error is printed and the function returns without
writing; otherwise the full content is written.  Returns (lines printed to
stdout, file content written). -/
def writeCommandLogFile (createErr : Option String) (now : String)
    (commandLog : List String) (errText : String) : List String × Option String :=
  match createErr with
  | some msg => ([msg], none)
  | none => ([], some (writeCommandLogFileContent now commandLog errText))

/-- logCommand (src/main.go lines 178-180): appends to the command log.
It has no callers anywhere in the program. -/
def logCommand (commandLog : List String) (s : String) : List String :=
  commandLog ++ [s]

/-- runStage (src/main.go lines 73-79): if the current stage's
IsCompleteFunc() returns false, run its Action and record the returned error
on the stage record; then emit stageCompleteMsg (modelled by the driver
feeding `Msg.stageComplete` to `Update`).  The call
`stages[stageIndex].IsCompleteFunc()` is unguarded: a nil IsCompleteFunc
(modelled `none`) panics, as does an out-of-range stageIndex. -/
def runStage (st : RunState) : Option RunState :=
  match st.stages[st.stageIndex]? with
  | none => none
  | some s =>
    match s.IsCompleteFuncResult with
    | none => none
    | some true => some st
    | some false =>
      some { st with
        stages := st.stages.set st.stageIndex { s with Error := s.ActionResult },
        invoked := st.invoked ++ [st.stageIndex] }

/-- model.Update (src/main.go lines 102-135).  On stageCompleteMsg: if the
current stage has a recorded error, set the model's Error, write the failure
log and quit; otherwise mark the stage complete and either quit (last stage)
or advance the cursor and re-run.  errMsg sets the model's Error and quits;
Ctrl-C quits; startDeployMsg triggers runStage; everything else falls through
to the spinner update. -/
def Update (createErr : Option String) (now : String) (msg : Msg)
    (st : RunState) : Option (RunState × Cmd) :=
  match msg with
  | .stageComplete =>
    match st.stages[st.stageIndex]? with
    | none => none
    | some s =>
      match s.Error with
      | some e =>
        let w := writeCommandLogFile createErr now st.commandLog e
        some ({ st with
          mError := some e,
          logWrites := st.logWrites + 1,
          printed := st.printed ++ w.1,
          fileContent := w.2 }, Cmd.quit)
      | none =>
        let st1 := { st with
          stages := st.stages.set st.stageIndex { s with IsComplete := true } }
        if st1.stageIndex + 1 ≥ st1.stages.length then
          some (st1, Cmd.quit)
        else
          some ({ st1 with stageIndex := st1.stageIndex + 1 }, Cmd.runStageC)
  | .errMsg e => some ({ st with mError := some e }, Cmd.quit)
  | .keyCtrlC => some (st, Cmd.quit)
  | .keyOther => some (st, Cmd.noCmd)
  | .startDeploy => some (st, Cmd.runStageC)
  | .spinnerTick => some ({ st with spinnerPhase := st.spinnerPhase + 1 }, Cmd.tickC)

/-- The stage-execution drive loop: the bubbletea runtime executes the
runStage command, feeds the resulting stageCompleteMsg back to Update, and
repeats while Update returns the runStage command.  A quit is classified as
`failed` when the model's Error field was set, `succeeded` otherwise.  Fuel
bounds the recursion; `run` supplies enough fuel for any stage list. -/
def loop (createErr : Option String) (now : String) :
    Nat → RunState → Outcome × RunState
  | 0, st => (.crashed, st)
  | fuel + 1, st =>
    match runStage st with
    | none => (.crashed, st)
    | some st1 =>
      match Update createErr now .stageComplete st1 with
      | none => (.crashed, st1)
      | some (st2, Cmd.quit) =>
        (if st2.mError.isSome then .failed else .succeeded, st2)
      | some (st2, Cmd.runStageC) => loop createErr now fuel st2
      | some (st2, _) => (.crashed, st2)

/-- The initial program state: cursor 0, empty command log, clean model. -/
def initState (L : List Stage) : RunState :=
  { stages := L }

/-- A whole run of the program on stage list `L`: Init emits startDeployMsg,
Update turns it into the runStage command, and the loop drives the stages. -/
def run (createErr : Option String) (now : String) (L : List Stage) :
    Outcome × RunState :=
  match Update createErr now .startDeploy (initState L) with
  | some (st, Cmd.runStageC) => loop createErr now (L.length + 1) st
  | _ => (.crashed, initState L)

/-- The failure glyph of renderCheckbox (styling stripped). -/
def errorGlyph : String := " ❌ "

/-- The completion glyph of renderCheckbox (styling stripped). -/
def completeGlyph : String := " ✅ "

/-- The pending glyph of renderCheckbox. -/
def pendingGlyph : String := " 🔲 "

/-- renderCheckbox (src/main.go lines 138-148): error glyph if the stage has
a recorded error, else the complete glyph if it is complete, else pending. -/
def renderCheckbox (s : Stage) : String :=
  match s.Error with
  | some _ => errorGlyph
  | none => if s.IsComplete then completeGlyph else pendingGlyph

/-- renderWorkingStatus (src/main.go lines 150-160): the spinner view when the
stage is not complete, otherwise a blank placeholder; then a space and the
stage name.  `spinnerView` is the spinner's current frame. -/
def renderWorkingStatus (spinnerView : String) (s : Stage) : String :=
  (if !s.IsComplete then spinnerView else " ") ++ " " ++ s.Name

/-- model.View (src/main.go lines 162-171): a header naming the stage at the
cursor (an unguarded index: out of range panics, modelled `none`), then one
checkbox + working-status line per stage in order. -/
def View (spinnerView : String) (st : RunState) : Option String :=
  match st.stages[st.stageIndex]? with
  | none => none
  | some cur =>
    some ("Current stage: " ++ cur.Name ++ "\n" ++
      String.join (st.stages.map
        (fun stage => renderCheckbox stage ++ " " ++
          renderWorkingStatus spinnerView stage ++ "\n")))

/-! ## The earlier variant src/unnamed/part_000

Its `Stage` struct has no `IsCompleteFunc`; its `runStage` copies the stage
struct into a local variable and assigns the action's error to the copy, so
the slice is never written back; its `Update` marks the current stage complete
unconditionally (it never looks at `Error`) and there is no failure log. -/

/-- The Stage struct of src/unnamed/part_000 (no IsCompleteFunc). -/
structure StageP where
  Name : String := ""
  ActionResult : Option String := none
  Error : Option String := none
  IsComplete : Bool := false
deriving Repr, DecidableEq

/-- renderCheckbox of src/unnamed/part_000 (same logic as main.go). -/
def renderCheckboxP (s : StageP) : String :=
  match s.Error with
  | some _ => errorGlyph
  | none => if s.IsComplete then completeGlyph else pendingGlyph

/-- runStage of src/unnamed/part_000 (lines 55-60):
`currentStage := stages[stageIndex]` copies the struct, and
`currentStage.Error = currentStage.Action()` assigns the returned error to
that local copy, so the `stages` slice is left unchanged; the action is still
invoked.  Returns (stages, invoked indices). -/
def runStageP (stages : List StageP) (i : Nat) (invoked : List Nat) :
    Option (List StageP × List Nat) :=
  match stages[i]? with
  | none => none
  | some currentStage =>
    let _updatedCopy := { currentStage with Error := currentStage.ActionResult }
    some (stages, invoked ++ [i])

/-- model.Update of src/unnamed/part_000 on stageCompleteMsg (lines 84-94):
mark the current stage complete unconditionally, quit after the last stage,
otherwise advance.  Returns (stages, new index, quit flag). -/
def updateStageCompleteP (stages : List StageP) (i : Nat) :
    Option (List StageP × Nat × Bool) :=
  match stages[i]? with
  | none => none
  | some s =>
    let stages1 := stages.set i { s with IsComplete := true }
    if i + 1 ≥ stages1.length then some (stages1, i, true)
    else some (stages1, i + 1, false)

/-- The drive loop of src/unnamed/part_000. -/
def loopP : Nat → List StageP → Nat → List Nat →
    Option (List StageP × Nat × List Nat)
  | 0, _, _, _ => none
  | fuel + 1, stages, i, inv =>
    match runStageP stages i inv with
    | none => none
    | some (st1, inv1) =>
      match updateStageCompleteP st1 i with
      | none => none
      | some (st2, i2, true) => some (st2, i2, inv1)
      | some (st2, i2, false) => loopP fuel st2 i2 inv1

/-- A whole run of the src/unnamed/part_000 program. -/
def runP (stages : List StageP) : Option (List StageP × Nat × List Nat) :=
  loopP (stages.length + 1) stages 0 []

/-- The hardcoded stage list of src/unnamed/part_000: stage "One" returns the
error "This one errored", stage "Two" succeeds. -/
def part000Stages : List StageP :=
  [{ Name := "One", ActionResult := some "This one errored" },
   { Name := "Two", ActionResult := none }]

/-! ## Helper predicates and lemmas -/

/-- A stage record in its initial state: no recorded error, not complete. -/
abbrev stageClean (s : Stage) : Prop :=
  s.Error = none ∧ s.IsComplete = false

/-- A stage whose execution succeeds: either its completion predicate reports
true (skip) or it reports false and the action returns nil. -/
abbrev stageSucceeds (s : Stage) : Prop :=
  s.IsCompleteFuncResult = some true ∨
    (s.IsCompleteFuncResult = some false ∧ s.ActionResult = none)

/-- A stage whose execution fails with error `e`: the predicate reports false
and the action returns `e`. -/
abbrev stageFails (s : Stage) (e : String) : Prop :=
  s.IsCompleteFuncResult = some false ∧ s.ActionResult = some e

/-- Setting a list cell to the value it already holds changes nothing. -/
theorem set_same_of_getElem? {α : Type} :
    ∀ (l : List α) (i : Nat) (a : α), l[i]? = some a → l.set i a = l := by
  intro l
  induction l with
  | nil => intro i a h; simp at h
  | cons b t ih =>
    intro i a h
    cases i with
    | zero => simp at h; simp [List.set, h]
    | succ i => simp at h; simp [List.set, ih i a h]

/-- Re-recording a nil action result on a clean stage changes nothing. -/
theorem stage_error_refl (s : Stage) (h1 : s.ActionResult = none)
    (h2 : s.Error = none) : { s with Error := s.ActionResult } = s := by
  cases s
  simp_all

/-- The first `k` stages of `L`, marked complete (the shape `stages` has after
the first `k` stage-complete messages of an error-free run were processed). -/
def markComplete (L : List Stage) : Nat → List Stage
  | 0 => L
  | k + 1 =>
    match L[k]? with
    | some s => (markComplete L k).set k { s with IsComplete := true }
    | none => markComplete L k

theorem markComplete_length (L : List Stage) :
    ∀ k, (markComplete L k).length = L.length := by
  intro k
  induction k with
  | zero => rfl
  | succ k ih =>
    unfold markComplete
    cases h : L[k]? with
    | none => simpa using ih
    | some s => simpa using ih

theorem markComplete_getElem? (L : List Stage) :
    ∀ k j, (markComplete L k)[j]? =
      if j < k then (L[j]?).map (fun s => { s with IsComplete := true })
      else L[j]? := by
  intro k
  induction k with
  | zero => intro j; simp [markComplete]
  | succ k ih =>
    intro j
    unfold markComplete
    cases h : L[k]? with
    | none =>
      rw [ih j]
      by_cases hjk : j < k
      · simp [hjk, Nat.lt_succ_of_lt hjk]
      · by_cases hje : j = k
        · subst hje
          simp [hjk, h, Nat.lt_succ_self]
        · have hns : ¬ j < k + 1 := by omega
          simp [hjk, hns]
    | some s =>
      by_cases hje : j = k
      · subst hje
        rw [List.getElem?_set_self', ih j]
        simp [h, Nat.lt_succ_self]
      · rw [List.getElem?_set_ne (fun hh => hje hh.symm), ih j]
        by_cases hjk : j < k
        · simp [hjk, Nat.lt_succ_of_lt hjk]
        · have hns : ¬ j < k + 1 := by omega
          simp [hjk, hns]

/-- Unfolding `markComplete` one step at a valid index. -/
theorem markComplete_succ_of (L : List Stage) (k : Nat) (s : Stage)
    (h : L[k]? = some s) :
    markComplete L (k + 1) = (markComplete L k).set k { s with IsComplete := true } := by
  simp only [markComplete]
  rw [h]

/-- One stage-execution step on a succeeding stage: runStage leaves the state
unchanged apart from possibly recording the invocation, and Update marks the
stage complete, then quits on the last stage or advances the cursor. -/
theorem step_succ (ce : Option String) (now : String) (L : List Stage)
    (i : Nat) (s : Stage) (cl : List String) (inv : List Nat) (lw : Nat)
    (pr : List String) (fc me : Option String) (sp : Nat)
    (hgi : L[i]? = some s) (hcs : stageClean s) (hss : stageSucceeds s) :
    ∃ inv0 : List Nat,
      (∀ j, j ∈ inv0 → j = i) ∧
      runStage ⟨markComplete L i, i, cl, inv, lw, pr, fc, me, sp⟩ =
        some ⟨markComplete L i, i, cl, inv ++ inv0, lw, pr, fc, me, sp⟩ ∧
      Update ce now .stageComplete
          ⟨markComplete L i, i, cl, inv ++ inv0, lw, pr, fc, me, sp⟩ =
        (if i + 1 ≥ L.length then
          some (⟨markComplete L (i + 1), i, cl, inv ++ inv0, lw, pr, fc, me, sp⟩,
            Cmd.quit)
        else
          some (⟨markComplete L (i + 1), i + 1, cl, inv ++ inv0, lw, pr, fc, me, sp⟩,
            Cmd.runStageC)) := by
  obtain ⟨sN, sA, sP, sE, sC⟩ := s
  obtain ⟨hE, hC⟩ := hcs
  replace hE : sE = none := hE
  replace hC : sC = false := hC
  subst hE
  subst hC
  have hm : (markComplete L i)[i]? = some ⟨sN, sA, sP, none, false⟩ := by
    rw [markComplete_getElem?]
    simp [hgi]
  have hmark := markComplete_succ_of L i _ hgi
  have hlen : ((markComplete L i).set i (⟨sN, sA, sP, none, true⟩ : Stage)).length =
      L.length := by
    rw [List.length_set, markComplete_length]
  have hupd : ∀ inv2 : List Nat, Update ce now .stageComplete
      ⟨markComplete L i, i, cl, inv2, lw, pr, fc, me, sp⟩ =
      (if i + 1 ≥ L.length then
        some (⟨markComplete L (i + 1), i, cl, inv2, lw, pr, fc, me, sp⟩, Cmd.quit)
      else
        some (⟨markComplete L (i + 1), i + 1, cl, inv2, lw, pr, fc, me, sp⟩,
          Cmd.runStageC)) := by
    intro inv2
    simp only [Update, hm]
    rw [hlen, ← hmark]
  rcases hss with hp | ⟨hp, ha⟩
  · replace hp : sP = some true := hp
    subst hp
    refine ⟨[], by simp, ?_, ?_⟩
    · simp [runStage, hm]
    · simpa using hupd inv
  · replace hp : sP = some false := hp
    replace ha : sA = none := ha
    subst hp
    subst ha
    have hset : (markComplete L i).set i (⟨sN, none, some false, none, false⟩ : Stage) =
        markComplete L i := set_same_of_getElem? _ _ _ hm
    refine ⟨[i], by simp, ?_, ?_⟩
    · simp [runStage, hm, hset]
    · exact hupd (inv ++ [i])

/-- The stage-execution step on the failing stage: runStage records the
action's error on the stage record, and Update then sets the model error,
calls writeCommandLogFile once, and quits. -/
theorem step_fail (ce : Option String) (now : String) (L : List Stage)
    (k : Nat) (sk : Stage) (e : String) (cl : List String) (inv : List Nat)
    (lw : Nat) (pr : List String) (fc me : Option String) (sp : Nat)
    (hk : L[k]? = some sk) (hkc : stageClean sk) (hkf : stageFails sk e) :
    runStage ⟨markComplete L k, k, cl, inv, lw, pr, fc, me, sp⟩ =
      some ⟨(markComplete L k).set k { sk with Error := some e }, k, cl,
        inv ++ [k], lw, pr, fc, me, sp⟩ ∧
    Update ce now .stageComplete
        ⟨(markComplete L k).set k { sk with Error := some e }, k, cl,
          inv ++ [k], lw, pr, fc, me, sp⟩ =
      some (⟨(markComplete L k).set k { sk with Error := some e }, k, cl,
        inv ++ [k], lw + 1,
        pr ++ (writeCommandLogFile ce now cl e).1,
        (writeCommandLogFile ce now cl e).2, some e, sp⟩, Cmd.quit) := by
  obtain ⟨sN, sA, sP, sE, sC⟩ := sk
  obtain ⟨hE, hC⟩ := hkc
  obtain ⟨hP, hA⟩ := hkf
  replace hE : sE = none := hE
  replace hC : sC = false := hC
  replace hP : sP = some false := hP
  replace hA : sA = some e := hA
  subst hE
  subst hC
  subst hP
  subst hA
  have hm : (markComplete L k)[k]? = some ⟨sN, some e, some false, none, false⟩ := by
    rw [markComplete_getElem?]
    simp [hk]
  have hm2 : ((markComplete L k).set k
      (⟨sN, some e, some false, some e, false⟩ : Stage))[k]? =
      some ⟨sN, some e, some false, some e, false⟩ := by
    rw [List.getElem?_set_self', hm]
    rfl
  constructor
  · simp [runStage, hm]
  · simp [Update, hm2]

/-- Driving the loop from index `i` over a stage list in which every stage is
clean and succeeding reaches the Succeeded quit with all stages marked
complete and the cursor on the last stage. -/
theorem loop_all_succeed (ce : Option String) (now : String) (L : List Stage) :
    ∀ fuel i cl inv lw pr fc sp,
      i < L.length →
      (∀ s, s ∈ L → stageClean s ∧ stageSucceeds s) →
      L.length - i ≤ fuel →
      ∃ inv2 : List Nat,
        loop ce now fuel ⟨markComplete L i, i, cl, inv, lw, pr, fc, none, sp⟩ =
          (.succeeded,
           ⟨markComplete L L.length, L.length - 1, cl, inv ++ inv2, lw, pr, fc,
            none, sp⟩) := by
  intro fuel
  induction fuel with
  | zero =>
    intro i cl inv lw pr fc sp hi hall hfuel
    omega
  | succ fuel ih =>
    intro i cl inv lw pr fc sp hi hall hfuel
    obtain ⟨s, hgi⟩ : ∃ s, L[i]? = some s := by
      rw [List.getElem?_eq_getElem hi]
      exact ⟨_, rfl⟩
    have hmem : s ∈ L := by
      obtain ⟨h2, rfl⟩ := List.getElem?_eq_some.mp hgi
      exact List.getElem_mem h2
    obtain ⟨hcs, hss⟩ := hall s hmem
    obtain ⟨inv0, _, hrs, hup⟩ :=
      step_succ ce now L i s cl inv lw pr fc none sp hgi hcs hss
    by_cases hlast : i + 1 ≥ L.length
    · have hIl : i + 1 = L.length := by omega
      have hIl2 : i = L.length - 1 := by omega
      refine ⟨inv0, ?_⟩
      rw [if_pos hlast] at hup
      simp only [loop, hrs, hup]
      rw [hIl, hIl2]
      simp
    · rw [if_neg hlast] at hup
      push_neg at hlast
      obtain ⟨inv2, hloop⟩ := ih (i + 1) cl (inv ++ inv0) lw pr fc sp hlast hall
        (by omega)
      refine ⟨inv0 ++ inv2, ?_⟩
      simp only [loop, hrs, hup, hloop]
      rw [List.append_assoc]

/-- Driving the loop from index `i ≤ k` when stages before `k` succeed and
stage `k` fails with error `e` reaches the Failed quit: the failing stage
record holds the error, exactly one failure-log write happened, the model
error is the stage error, and only indices up to `k` were invoked. -/
theorem loop_first_fail (ce : Option String) (now : String) (L : List Stage)
    (k : Nat) (e : String) (sk : Stage)
    (hk : L[k]? = some sk) (hkc : stageClean sk) (hkf : stageFails sk e)
    (hkN : k < L.length) :
    ∀ fuel i cl inv lw pr fc me sp,
      i ≤ k →
      (∀ s, s ∈ L → stageClean s) →
      (∀ j s, L[j]? = some s → j < k → stageSucceeds s) →
      k + 1 - i ≤ fuel →
      ∃ inv2 : List Nat,
        (∀ j, j ∈ inv2 → i ≤ j ∧ j ≤ k) ∧
        loop ce now fuel ⟨markComplete L i, i, cl, inv, lw, pr, fc, me, sp⟩ =
          (.failed,
           ⟨(markComplete L k).set k { sk with Error := some e }, k, cl,
            inv ++ inv2, lw + 1,
            pr ++ (writeCommandLogFile ce now cl e).1,
            (writeCommandLogFile ce now cl e).2, some e, sp⟩) := by
  intro fuel
  induction fuel with
  | zero =>
    intro i cl inv lw pr fc me sp hik hclean hsucc hfuel
    omega
  | succ fuel ih =>
    intro i cl inv lw pr fc me sp hik hclean hsucc hfuel
    by_cases hie : i = k
    · subst hie
      obtain ⟨hrs, hup⟩ :=
        step_fail ce now L i sk e cl inv lw pr fc me sp hk hkc hkf
      refine ⟨[i], by simp, ?_⟩
      simp only [loop, hrs, hup]
      simp
    · have hiklt : i < k := by omega
      have hi : i < L.length := by omega
      obtain ⟨s, hgi⟩ : ∃ s, L[i]? = some s := by
        rw [List.getElem?_eq_getElem hi]
        exact ⟨_, rfl⟩
      have hmem : s ∈ L := by
        obtain ⟨h2, rfl⟩ := List.getElem?_eq_some.mp hgi
        exact List.getElem_mem h2
      obtain ⟨inv0, hinv0, hrs, hup⟩ :=
        step_succ ce now L i s cl inv lw pr fc me sp hgi (hclean s hmem)
          (hsucc i s hgi hiklt)
      have hlast : ¬ i + 1 ≥ L.length := by omega
      rw [if_neg hlast] at hup
      obtain ⟨inv2, hinv2, hloop⟩ := ih (i + 1) cl (inv ++ inv0) lw pr fc me sp
        (by omega) hclean hsucc (by omega)
      refine ⟨inv0 ++ inv2, ?_, ?_⟩
      · intro j hj
        rcases List.mem_append.mp hj with hj0 | hj2
        · have := hinv0 j hj0
          omega
        · have := hinv2 j hj2
          omega
      · simp only [loop, hrs, hup, hloop]
        rw [List.append_assoc]

/-- A whole run is the drive loop started on the initial state. -/
theorem run_eq_loop (ce : Option String) (now : String) (L : List Stage) :
    run ce now L =
      loop ce now (L.length + 1) ⟨L, 0, [], [], 0, [], none, none, 0⟩ := rfl

/-- A sample stage whose predicate reports false and whose action succeeds. -/
def okW : Stage :=
  { Name := "A", ActionResult := none, IsCompleteFuncResult := some false }

/-- A sample stage whose predicate reports true (skipped). -/
def skipW : Stage :=
  { Name := "B", IsCompleteFuncResult := some true }

/-- A sample stage whose predicate reports false and whose action fails. -/
def failW : Stage :=
  { Name := "C", ActionResult := some "boom", IsCompleteFuncResult := some false }

/-- Claim C2 (amended): for every stage list of N >= 1 clean stages in which
every stage succeeds (action returns nil, or completion predicate reports
true), the run reaches the Succeeded terminal state with stageIndex = N - 1,
every stage marked IsComplete with Error nil, and no failure-log write. -/
theorem run_all_succeed (ce : Option String) (now : String) (L : List Stage)
    (hne : L ≠ [])
    (hall : ∀ s, s ∈ L → stageClean s ∧ stageSucceeds s) :
    (run ce now L).1 = .succeeded ∧
    (run ce now L).2.stageIndex = L.length - 1 ∧
    (∀ (j : Nat) (s : Stage), L[j]? = some s →
      (run ce now L).2.stages[j]? = some { s with IsComplete := true }) ∧
    (∀ s : Stage, s ∈ (run ce now L).2.stages →
      s.IsComplete = true ∧ s.Error = none) ∧
    (run ce now L).2.logWrites = 0 ∧
    (run ce now L).2.fileContent = none := by
  have hlen : 0 < L.length := List.length_pos.mpr hne
  obtain ⟨inv2, h⟩ := loop_all_succeed ce now L (L.length + 1) 0 [] [] 0 [] none 0
    hlen hall (by omega)
  have h0 : markComplete L 0 = L := rfl
  rw [h0] at h
  have hrun : run ce now L =
      (.succeeded,
       ⟨markComplete L L.length, L.length - 1, [], [] ++ inv2, 0, [], none,
        none, 0⟩) := by
    rw [run_eq_loop, h]
  refine ⟨by rw [hrun], by rw [hrun], ?_, ?_, by rw [hrun], by rw [hrun]⟩
  · intro j s hjs
    have hj : j < L.length := by
      obtain ⟨h2, _⟩ := List.getElem?_eq_some.mp hjs
      exact h2
    rw [hrun]
    simp [markComplete_getElem?, if_pos hj, hjs]
  · intro s hs
    rw [hrun] at hs
    simp only at hs
    obtain ⟨j, hj⟩ := List.mem_iff_getElem?.mp hs
    have hjlen : j < L.length := by
      obtain ⟨h2, _⟩ := List.getElem?_eq_some.mp hj
      rw [markComplete_length] at h2
      exact h2
    rw [markComplete_getElem?, if_pos hjlen] at hj
    obtain ⟨s0, hs0, hmap⟩ := Option.map_eq_some.mp hj
    have hs0mem : s0 ∈ L := by
      obtain ⟨h2, rfl⟩ := List.getElem?_eq_some.mp hs0
      exact List.getElem_mem h2
    obtain ⟨⟨hE, _⟩, _⟩ := hall s0 hs0mem
    subst hmap
    exact ⟨rfl, hE⟩

/-- Claim C2, counterexample for N = 0: on an empty stage list the program
does not reach Succeeded; runStage indexes stages[0] out of range and the run
crashes. -/
theorem run_empty_crashes :
    (run none "t" ([] : List Stage)).1 = Outcome.crashed ∧
    (run none "t" ([] : List Stage)).1 ≠ Outcome.succeeded := by
  decide

/-- Witness for run_all_succeed at a concrete two-stage list. -/
theorem run_all_succeed_witness :
    (run none "t" [okW, skipW]).1 = Outcome.succeeded ∧
    (run none "t" [okW, skipW]).2.stageIndex = 1 := by
  have h := run_all_succeed none "t" [okW, skipW] (by decide)
    (by decide)
  exact ⟨h.1, h.2.1⟩

/-- Claim C1: when the stages before k succeed and stage k's action returns
error e, the run reaches the Failed terminal state (one failure-log write, the
model error set, the program quits), stage k records the error and stays
incomplete, stages before k are complete with no error, and every stage after
k is untouched and never invoked. -/
theorem run_first_fail (ce : Option String) (now : String) (L : List Stage)
    (k : Nat) (e : String) (sk : Stage)
    (hk : L[k]? = some sk) (hkf : stageFails sk e)
    (hclean : ∀ s : Stage, s ∈ L → stageClean s)
    (hsucc : ∀ (j : Nat) (s : Stage), L[j]? = some s → j < k → stageSucceeds s) :
    (run ce now L).1 = .failed ∧
    (run ce now L).2.logWrites = 1 ∧
    (run ce now L).2.mError = some e ∧
    (run ce now L).2.stageIndex = k ∧
    (run ce now L).2.stages[k]? = some { sk with Error := some e } ∧
    ({ sk with Error := some e } : Stage).IsComplete = false ∧
    (∀ (j : Nat) (s : Stage), j < k → L[j]? = some s →
      (run ce now L).2.stages[j]? = some { s with IsComplete := true } ∧
        s.Error = none) ∧
    (∀ j : Nat, k < j → (run ce now L).2.stages[j]? = L[j]?) ∧
    (∀ j : Nat, j ∈ (run ce now L).2.invoked → j ≤ k) := by
  have hkN : k < L.length := by
    obtain ⟨h2, _⟩ := List.getElem?_eq_some.mp hk
    exact h2
  have hkmem : sk ∈ L := by
    obtain ⟨h2, rfl⟩ := List.getElem?_eq_some.mp hk
    exact List.getElem_mem h2
  have hkc : stageClean sk := hclean sk hkmem
  obtain ⟨inv2, hinv2, h⟩ := loop_first_fail ce now L k e sk hk hkc hkf hkN
    (L.length + 1) 0 [] [] 0 [] none none 0 (by omega) hclean hsucc (by omega)
  have h0 : markComplete L 0 = L := rfl
  rw [h0] at h
  have hmk : (markComplete L k)[k]? = some sk := by
    rw [markComplete_getElem?]
    simp [hk]
  have hrun : run ce now L =
      (.failed,
       ⟨(markComplete L k).set k { sk with Error := some e }, k, [],
        [] ++ inv2, 0 + 1, [] ++ (writeCommandLogFile ce now [] e).1,
        (writeCommandLogFile ce now [] e).2, some e, 0⟩) := by
    rw [run_eq_loop, h]
  refine ⟨by rw [hrun], by rw [hrun], by rw [hrun], by rw [hrun], ?_, ?_, ?_, ?_, ?_⟩
  · rw [hrun]
    simp only
    rw [List.getElem?_set_self', hmk]
    rfl
  · obtain ⟨_, hC⟩ := hkc
    simpa using hC
  · intro j s hjk hjs
    have hj : j < L.length := by omega
    constructor
    · rw [hrun]
      simp only
      rw [List.getElem?_set_ne (by omega), markComplete_getElem?, if_pos hjk, hjs]
      rfl
    · exact (hclean s (by
        obtain ⟨h2, rfl⟩ := List.getElem?_eq_some.mp hjs
        exact List.getElem_mem h2)).1
  · intro j hkj
    rw [hrun]
    simp only
    rw [List.getElem?_set_ne (by omega), markComplete_getElem?,
      if_neg (by omega)]
  · intro j hj
    rw [hrun] at hj
    simp only [List.nil_append] at hj
    exact (hinv2 j hj).2

/-- Witness for run_first_fail at a concrete three-stage list failing at 1. -/
theorem run_first_fail_witness :
    (run none "t" [okW, failW, okW]).1 = Outcome.failed ∧
    (run none "t" [okW, failW, okW]).2.logWrites = 1 := by
  have h := run_first_fail none "t" [okW, failW, okW] 1 "boom" failW rfl
    (by decide) (by decide)
    (by
      intro j s hjs hj
      have hj0 : j = 0 := by omega
      subst hj0
      simp only [List.getElem?_cons_zero, Option.some_inj] at hjs
      subst hjs
      decide)
  exact ⟨h.1, h.2.1⟩

/-- Transfer of the witness "this cell holds a predicate-false stage" along an
equality of predicate views. -/
theorem predFalse_of_map_eq {o1 o2 : Option Stage}
    (h : o1.map (fun s => s.IsCompleteFuncResult) =
      o2.map (fun s => s.IsCompleteFuncResult))
    (hx : ∃ s : Stage, o1 = some s ∧ s.IsCompleteFuncResult = some false) :
    ∃ s : Stage, o2 = some s ∧ s.IsCompleteFuncResult = some false := by
  obtain ⟨s, rfl, hp⟩ := hx
  cases o2 with
  | none => simp at h
  | some s2 =>
    simp only [Option.map_some'] at h
    refine ⟨s2, rfl, ?_⟩
    rw [← Option.some_inj.mp h]
    exact hp

/-- runStage preserves every stage's completion-predicate view, and only
appends an index whose stage's predicate reported false. -/
theorem runStage_pred_inv (st st1 : RunState) (h : runStage st = some st1)
    (j : Nat) :
    (st1.stages[j]?).map (fun s => s.IsCompleteFuncResult) =
      (st.stages[j]?).map (fun s => s.IsCompleteFuncResult) ∧
    (j ∈ st1.invoked → j ∈ st.invoked ∨
      ∃ s : Stage, st.stages[j]? = some s ∧ s.IsCompleteFuncResult = some false) := by
  cases hm : st.stages[st.stageIndex]? with
  | none =>
    simp only [runStage, hm] at h
    exact Option.noConfusion h
  | some s =>
    cases hp : s.IsCompleteFuncResult with
    | none =>
      simp only [runStage, hm, hp] at h
      exact Option.noConfusion h
    | some b =>
      cases b with
      | true =>
        simp only [runStage, hm, hp, Option.some_inj] at h
        subst h
        exact ⟨rfl, fun hj => Or.inl hj⟩
      | false =>
        simp only [runStage, hm, hp, Option.some_inj] at h
        subst h
        constructor
        · simp only
          by_cases hje : st.stageIndex = j
          · subst hje
            rw [List.getElem?_set_self', hm]
            simp [hp]
          · rw [List.getElem?_set_ne hje]
        · intro hj
          simp only [List.mem_append, List.mem_singleton] at hj
          rcases hj with hj | hj
          · exact Or.inl hj
          · subst hj
            exact Or.inr ⟨s, hm, hp⟩

/-- Update on a stage-complete message never touches the invoked list and
preserves every stage's completion-predicate view. -/
theorem update_pred_inv (ce : Option String) (now : String)
    (st st2 : RunState) (c : Cmd)
    (h : Update ce now .stageComplete st = some (st2, c)) (j : Nat) :
    st2.invoked = st.invoked ∧
    (st2.stages[j]?).map (fun s => s.IsCompleteFuncResult) =
      (st.stages[j]?).map (fun s => s.IsCompleteFuncResult) := by
  cases hm : st.stages[st.stageIndex]? with
  | none =>
    simp only [Update, hm] at h
    exact Option.noConfusion h
  | some s =>
    cases hE : s.Error with
    | some e =>
      simp only [Update, hm, hE, Option.some_inj, Prod.mk.injEq] at h
      rw [← h.1]
      exact ⟨rfl, rfl⟩
    | none =>
      have hpr : ∀ (st3 : RunState) (s2 : Stage),
          s2.IsCompleteFuncResult = s.IsCompleteFuncResult →
          st3.stages = st.stages.set st.stageIndex s2 →
          (st3.stages[j]?).map (fun s => s.IsCompleteFuncResult) =
            (st.stages[j]?).map (fun s => s.IsCompleteFuncResult) := by
        intro st3 s2 h2 h3
        rw [h3]
        by_cases hje : st.stageIndex = j
        · subst hje
          rw [List.getElem?_set_self', hm]
          simp [h2]
        · rw [List.getElem?_set_ne hje]
      simp only [Update, hm, hE] at h
      by_cases hlast : st.stageIndex + 1 ≥
          (st.stages.set st.stageIndex { s with IsComplete := true }).length
      · rw [if_pos (by simpa using hlast)] at h
        simp only [Option.some_inj, Prod.mk.injEq] at h
        rw [← h.1]
        exact ⟨rfl, hpr _ (⟨s.Name, s.ActionResult, s.IsCompleteFuncResult, none, true⟩ : Stage) rfl rfl⟩
      · rw [if_neg (by simpa using hlast)] at h
        simp only [Option.some_inj, Prod.mk.injEq] at h
        rw [← h.1]
        exact ⟨rfl, hpr _ (⟨s.Name, s.ActionResult, s.IsCompleteFuncResult, none, true⟩ : Stage) rfl rfl⟩

/-- Across a whole drive loop, an index can only end up in the invoked list if
it was already there or its stage's completion predicate reported false. -/
theorem loop_invoked (ce : Option String) (now : String) :
    ∀ (fuel : Nat) (st : RunState) (j : Nat),
      j ∈ (loop ce now fuel st).2.invoked →
      j ∈ st.invoked ∨
        ∃ s : Stage, st.stages[j]? = some s ∧
          s.IsCompleteFuncResult = some false := by
  intro fuel
  induction fuel with
  | zero =>
    intro st j hj
    exact Or.inl hj
  | succ fuel ih =>
    intro st j hj
    simp only [loop] at hj
    cases hrs : runStage st with
    | none =>
      simp only [hrs] at hj
      exact Or.inl hj
    | some st1 =>
      simp only [hrs] at hj
      obtain ⟨hmap1, hinv1⟩ := runStage_pred_inv st st1 hrs j
      have back : (j ∈ st1.invoked ∨
          ∃ s : Stage, st1.stages[j]? = some s ∧
            s.IsCompleteFuncResult = some false) →
          j ∈ st.invoked ∨
            ∃ s : Stage, st.stages[j]? = some s ∧
              s.IsCompleteFuncResult = some false := by
        intro hcase
        rcases hcase with hcase | hcase
        · exact hinv1 hcase
        · exact Or.inr (predFalse_of_map_eq hmap1 hcase)
      cases hup : Update ce now .stageComplete st1 with
      | none =>
        simp only [hup] at hj
        exact back (Or.inl hj)
      | some p =>
        obtain ⟨st2, c⟩ := p
        obtain ⟨hinv2, hmap2⟩ := update_pred_inv ce now st1 st2 c hup j
        have back2 : j ∈ st2.invoked →
            j ∈ st.invoked ∨
              ∃ s : Stage, st.stages[j]? = some s ∧
                s.IsCompleteFuncResult = some false := by
          intro hcase
          rw [hinv2] at hcase
          exact back (Or.inl hcase)
        cases c with
        | quit =>
          simp only [hup] at hj
          exact back2 hj
        | runStageC =>
          simp only [hup] at hj
          rcases ih st2 j hj with hcase | hcase
          · exact back2 hcase
          · exact back (Or.inr (predFalse_of_map_eq hmap2 hcase))
        | tickC =>
          simp only [hup] at hj
          exact back2 hj
        | noCmd =>
          simp only [hup] at hj
          exact back2 hj

/-- The state Update produces on the success branch before advancing: the
current stage marked complete. -/
def markCurrentComplete (st : RunState) (s : Stage) : RunState :=
  { st with stages := st.stages.set st.stageIndex { s with IsComplete := true } }

/-- Claim C5: a stage whose completion predicate reports true is never passed
to its action during the whole run; and (locally) processing its
stage-complete message marks it IsComplete with its Error left nil and
proceeds to the next stage exactly through the success branch. -/
theorem pred_true_skips_action (ce : Option String) (now : String)
    (L : List Stage) (i : Nat) (s : Stage)
    (hgi : L[i]? = some s) (hp : s.IsCompleteFuncResult = some true) :
    i ∉ (run ce now L).2.invoked ∧
    (s.Error = none →
      ∀ st : RunState, st.stages[st.stageIndex]? = some s →
        runStage st = some st ∧
        Update ce now .stageComplete st =
          (if st.stageIndex + 1 ≥ st.stages.length then
            some (markCurrentComplete st s, Cmd.quit)
          else
            some ({ markCurrentComplete st s with
              stageIndex := st.stageIndex + 1 }, Cmd.runStageC))) := by
  constructor
  · intro hmem
    rw [run_eq_loop] at hmem
    rcases loop_invoked ce now (L.length + 1)
        ⟨L, 0, [], [], 0, [], none, none, 0⟩ i hmem with hcase | ⟨s0, hs0, hp0⟩
    · simp at hcase
    · simp only at hs0
      rw [hgi] at hs0
      rw [Option.some_inj.mp hs0] at hp
      exact Option.noConfusion (hp.symm.trans hp0) (by intro hb; cases hb)
  · intro hE st hst
    constructor
    · simp [runStage, hst, hp]
    · simp only [Update, hst, hE, List.length_set, markCurrentComplete]

/-- Witness for pred_true_skips_action on a concrete run. -/
theorem pred_true_skips_action_witness :
    0 ∉ (run none "t" [skipW, okW]).2.invoked ∧
    runStage ⟨[skipW, okW], 0, [], [], 0, [], none, none, 0⟩ =
      some ⟨[skipW, okW], 0, [], [], 0, [], none, none, 0⟩ := by
  have h := pred_true_skips_action none "t" [skipW, okW] 0 skipW rfl (by decide)
  exact ⟨h.1,
    (h.2 (by decide) ⟨[skipW, okW], 0, [], [], 0, [], none, none, 0⟩ rfl).1⟩

/-- Claim C4 (amended): the checkbox glyph is chosen per stage by: error glyph
if Error is non-nil, else the complete glyph if IsComplete, else the pending
glyph; the working-status line renders the spinner phase next to every stage
with IsComplete = false — including errored stages — and renders the blank
placeholder exactly when IsComplete = true. -/
theorem render_glyphs (spinnerView : String) (s : Stage) :
    (∀ e : String, s.Error = some e → renderCheckbox s = errorGlyph) ∧
    (s.Error = none → s.IsComplete = true → renderCheckbox s = completeGlyph) ∧
    (s.Error = none → s.IsComplete = false → renderCheckbox s = pendingGlyph) ∧
    (s.IsComplete = false →
      renderWorkingStatus spinnerView s = spinnerView ++ " " ++ s.Name) ∧
    (s.IsComplete = true →
      renderWorkingStatus spinnerView s = " " ++ " " ++ s.Name) := by
  refine ⟨?_, ?_, ?_, ?_, ?_⟩
  · intro e hE
    simp [renderCheckbox, hE]
  · intro hE hC
    simp [renderCheckbox, hE, hC]
  · intro hE hC
    simp [renderCheckbox, hE, hC]
  · intro hC
    simp [renderWorkingStatus, hC]
  · intro hC
    simp [renderWorkingStatus, hC]

/-- Witness for render_glyphs at a concrete errored stage. -/
theorem render_glyphs_witness :
    renderCheckbox { Name := "Two", Error := some "boom" } = errorGlyph ∧
    renderWorkingStatus "*" { Name := "Two", Error := some "boom" } =
      "*" ++ " " ++ "Two" := by
  have h := render_glyphs "*" { Name := "Two", Error := some "boom" }
  exact ⟨h.1 "boom" rfl, h.2.2.2.1 rfl⟩

/-- Claim C4, counterexample: a stage that errored (Error non-nil, and hence
IsComplete still false) renders the spinner phase, not the blank placeholder
the claim promises for errored stages. -/
theorem errored_stage_renders_spinner :
    renderWorkingStatus "*" { Name := "Two", Error := some "boom" } =
      "* Two" ∧
    renderWorkingStatus "*" { Name := "Two", Error := some "boom" } ≠
      "  Two" := by
  decide

/-- A sample stage whose IsCompleteFunc is nil (absent). -/
def nilPredW : Stage :=
  { Name := "MadeUp", ActionResult := none, IsCompleteFuncResult := none }

/-- Claim C6: a stage whose IsCompleteFunc is nil does not run its action;
runStage performs an unguarded call of the nil completion predicate and the
program panics (modelled by `none`), both at the single step and for the
whole run. -/
theorem nil_pred_crashes :
    runStage ⟨[nilPredW], 0, [], [], 0, [], none, none, 0⟩ = none ∧
    (run none "t" [nilPredW]).1 = Outcome.crashed ∧
    (run none "t" [nilPredW]).2.invoked = [] := by
  decide

/-- Claim C3: in the src/unnamed/part_000 variant the stage-action error is
discarded.  Its hardcoded stage "One" returns the error "This one errored"
and its action is invoked (index 0 is in the invoked trace), yet the run ends
with every stage record holding Error = nil and IsComplete = true, every
rendered checkbox showing the complete glyph, and no failure output of any
kind — the captured error reaches neither the view nor any log. -/
theorem part000_error_discarded :
    part000Stages.map (fun s => s.ActionResult) =
      [some "This one errored", none] ∧
    runP part000Stages =
      some ([{ Name := "One", ActionResult := some "This one errored",
               Error := none, IsComplete := true },
             { Name := "Two", ActionResult := none,
               Error := none, IsComplete := true }], 1, [0, 1]) ∧
    ([{ Name := "One", ActionResult := some "This one errored",
        Error := none, IsComplete := true },
      { Name := "Two", ActionResult := none,
        Error := none, IsComplete := true }] : List StageP).map renderCheckboxP =
      [completeGlyph, completeGlyph] := by
  decide

/-- Claim C9: on a non-empty stage list the cursor invariant
0 <= stageIndex < len(stages) holds initially and is preserved by every
message-processing step — the cursor moves only by one and only when
stageIndex + 1 < len(stages) — so the unguarded indexing of
stages[stageIndex] in runStage, View and writeCommandLogFile is in bounds. -/
theorem cursor_invariant (ce : Option String) (now : String) (st : RunState)
    (msg : Msg) (hidx : st.stageIndex < st.stages.length) :
    (st.stages[st.stageIndex]?).isSome ∧
    (∀ spinnerView : String, (View spinnerView st).isSome) ∧
    (∀ st1 : RunState, runStage st = some st1 →
      st1.stageIndex = st.stageIndex ∧
      st1.stages.length = st.stages.length ∧
      st1.stageIndex < st1.stages.length) ∧
    (∀ (st2 : RunState) (c : Cmd), Update ce now msg st = some (st2, c) →
      st2.stages.length = st.stages.length ∧
      st2.stageIndex < st2.stages.length ∧
      (st2.stageIndex = st.stageIndex ∨
        (st2.stageIndex = st.stageIndex + 1 ∧
          st.stageIndex + 1 < st.stages.length))) ∧
    (∀ M : List Stage, M ≠ [] → (initState M).stageIndex < M.length) := by
  have hsome : (st.stages[st.stageIndex]?).isSome := by
    rw [List.getElem?_eq_getElem hidx]
    rfl
  obtain ⟨s, hm⟩ := Option.isSome_iff_exists.mp hsome
  refine ⟨hsome, ?_, ?_, ?_, ?_⟩
  · intro spinnerView
    simp [View, hm]
  · intro st1 h
    cases hp : s.IsCompleteFuncResult with
    | none =>
      simp only [runStage, hm, hp] at h
      exact Option.noConfusion h
    | some b =>
      cases b with
      | true =>
        simp only [runStage, hm, hp, Option.some_inj] at h
        subst h
        exact ⟨rfl, rfl, hidx⟩
      | false =>
        simp only [runStage, hm, hp, Option.some_inj] at h
        subst h
        simpa using hidx
  · intro st2 c h
    cases msg with
    | stageComplete =>
      cases hE : s.Error with
      | some e =>
        simp only [Update, hm, hE, Option.some_inj, Prod.mk.injEq] at h
        rw [← h.1]
        exact ⟨rfl, hidx, Or.inl rfl⟩
      | none =>
        simp only [Update, hm, hE, List.length_set] at h
        by_cases hlast : st.stageIndex + 1 ≥ st.stages.length
        · rw [if_pos hlast] at h
          simp only [Option.some_inj, Prod.mk.injEq] at h
          rw [← h.1]
          refine ⟨by simp, by simpa using hidx, Or.inl rfl⟩
        · rw [if_neg hlast] at h
          simp only [Option.some_inj, Prod.mk.injEq] at h
          rw [← h.1]
          push_neg at hlast
          refine ⟨by simp, by simpa using hlast, Or.inr ⟨rfl, hlast⟩⟩
    | errMsg e =>
      simp only [Update, Option.some_inj, Prod.mk.injEq] at h
      rw [← h.1]
      exact ⟨rfl, hidx, Or.inl rfl⟩
    | keyCtrlC =>
      simp only [Update, Option.some_inj, Prod.mk.injEq] at h
      rw [← h.1]
      exact ⟨rfl, hidx, Or.inl rfl⟩
    | keyOther =>
      simp only [Update, Option.some_inj, Prod.mk.injEq] at h
      rw [← h.1]
      exact ⟨rfl, hidx, Or.inl rfl⟩
    | startDeploy =>
      simp only [Update, Option.some_inj, Prod.mk.injEq] at h
      rw [← h.1]
      exact ⟨rfl, hidx, Or.inl rfl⟩
    | spinnerTick =>
      simp only [Update, Option.some_inj, Prod.mk.injEq] at h
      rw [← h.1]
      exact ⟨rfl, hidx, Or.inl rfl⟩
  · intro M hM
    simpa [initState] using List.length_pos.mpr hM

/-- Witness for cursor_invariant at a concrete state and message. -/
theorem cursor_invariant_witness :
    ((⟨[okW, failW], 0, [], [], 0, [], none, none, 0⟩ :
      RunState).stages[(⟨[okW, failW], 0, [], [], 0, [], none, none, 0⟩ :
      RunState).stageIndex]?).isSome := by
  have h := cursor_invariant none "t"
    ⟨[okW, failW], 0, [], [], 0, [], none, none, 0⟩ Msg.stageComplete
    (by decide)
  exact h.1

/-- Claim C7: writeCommandLogFile is called exactly once on a failing run and
never on a fully successful run, and (when file creation succeeds) the
artifact is exactly the timestamp line, the delimited steps-taken section
enumerating the audit log in order, and the complete-error section holding
the failing stage's error text — the content writeCommandLogFileContent
builds. -/
theorem failure_log_write_count (now : String) :
    (∀ (ce : Option String) (L : List Stage) (k : Nat) (e : String)
        (sk : Stage),
      L[k]? = some sk → stageFails sk e →
      (∀ s : Stage, s ∈ L → stageClean s) →
      (∀ (j : Nat) (s : Stage), L[j]? = some s → j < k → stageSucceeds s) →
      (run ce now L).2.logWrites = 1 ∧
      (run none now L).2.fileContent =
        some (writeCommandLogFileContent now [] e)) ∧
    (∀ (ce : Option String) (L : List Stage),
      L ≠ [] →
      (∀ s : Stage, s ∈ L → stageClean s ∧ stageSucceeds s) →
      (run ce now L).2.logWrites = 0 ∧
      (run ce now L).2.fileContent = none) := by
  constructor
  · intro ce L k e sk hk hkf hclean hsucc
    have hkN : k < L.length := by
      obtain ⟨h2, _⟩ := List.getElem?_eq_some.mp hk
      exact h2
    have hkc : stageClean sk := hclean sk (by
      obtain ⟨h2, rfl⟩ := List.getElem?_eq_some.mp hk
      exact List.getElem_mem h2)
    constructor
    · obtain ⟨inv2, _, h⟩ := loop_first_fail ce now L k e sk hk hkc hkf hkN
        (L.length + 1) 0 [] [] 0 [] none none 0 (by omega) hclean hsucc
        (by omega)
      rw [show markComplete L 0 = L from rfl] at h
      rw [run_eq_loop, h]
    · obtain ⟨inv2, _, h⟩ := loop_first_fail none now L k e sk hk hkc hkf hkN
        (L.length + 1) 0 [] [] 0 [] none none 0 (by omega) hclean hsucc
        (by omega)
      rw [show markComplete L 0 = L from rfl] at h
      rw [run_eq_loop, h]
      rfl
  · intro ce L hne hall
    have hlen : 0 < L.length := List.length_pos.mpr hne
    obtain ⟨inv2, h⟩ := loop_all_succeed ce now L (L.length + 1) 0 [] [] 0 []
      none 0 hlen hall (by omega)
    rw [show markComplete L 0 = L from rfl] at h
    rw [run_eq_loop, h]
    exact ⟨rfl, rfl⟩

/-- Witness for failure_log_write_count on concrete failing and succeeding
runs. -/
theorem failure_log_write_count_witness :
    (run none "t" [failW]).2.logWrites = 1 ∧
    (run none "t" [okW]).2.logWrites = 0 := by
  have h := failure_log_write_count "t"
  refine ⟨(h.1 none [failW] 0 "boom" failW rfl (by decide) (by decide)
    (fun j s hjs hj => absurd hj (Nat.not_lt_zero j))).1, ?_⟩
  exact (h.2 none [okW] (by decide) (by decide)).1

/-- Claim C8: when os.Create fails, the error is printed on stdout (the
normal output channel), the write is attempted exactly once, and the run
still terminates through the same Failed quit path as when the write
succeeds, with the model error still the original stage failure and no file
content produced. -/
theorem log_create_failure_reported (now msg : String) (L : List Stage)
    (k : Nat) (e : String) (sk : Stage)
    (hk : L[k]? = some sk) (hkf : stageFails sk e)
    (hclean : ∀ s : Stage, s ∈ L → stageClean s)
    (hsucc : ∀ (j : Nat) (s : Stage), L[j]? = some s → j < k →
      stageSucceeds s) :
    (run (some msg) now L).1 = .failed ∧
    (run (some msg) now L).1 = (run none now L).1 ∧
    (run (some msg) now L).2.mError = some e ∧
    (run none now L).2.mError = some e ∧
    (run (some msg) now L).2.printed = [msg] ∧
    (run (some msg) now L).2.fileContent = none ∧
    (run (some msg) now L).2.logWrites = 1 := by
  have hkN : k < L.length := by
    obtain ⟨h2, _⟩ := List.getElem?_eq_some.mp hk
    exact h2
  have hkc : stageClean sk := hclean sk (by
    obtain ⟨h2, rfl⟩ := List.getElem?_eq_some.mp hk
    exact List.getElem_mem h2)
  obtain ⟨inv2, _, h1⟩ := loop_first_fail (some msg) now L k e sk hk hkc hkf
    hkN (L.length + 1) 0 [] [] 0 [] none none 0 (by omega) hclean hsucc
    (by omega)
  obtain ⟨inv3, _, h2⟩ := loop_first_fail none now L k e sk hk hkc hkf hkN
    (L.length + 1) 0 [] [] 0 [] none none 0 (by omega) hclean hsucc (by omega)
  rw [show markComplete L 0 = L from rfl] at h1 h2
  have hr1 := (run_eq_loop (some msg) now L).trans h1
  have hr2 := (run_eq_loop none now L).trans h2
  rw [hr1, hr2]
  exact ⟨rfl, rfl, rfl, rfl, rfl, rfl, rfl⟩

/-- Witness for log_create_failure_reported on a concrete run whose log-file
creation fails. -/
theorem log_create_failure_reported_witness :
    (run (some "cerr") "t" [failW]).1 = Outcome.failed ∧
    (run (some "cerr") "t" [failW]).2.printed = ["cerr"] := by
  have h := log_create_failure_reported "t" "cerr" [failW] 0 "boom" failW rfl
    (by decide) (by decide) (fun j s hjs hj => absurd hj (Nat.not_lt_zero j))
  exact ⟨h.1, h.2.2.2.2.1⟩

/-- runStage never touches the command log or the written file. -/
theorem runStage_log_inv (st st1 : RunState) (h : runStage st = some st1) :
    st1.commandLog = st.commandLog ∧ st1.fileContent = st.fileContent := by
  cases hm : st.stages[st.stageIndex]? with
  | none =>
    simp only [runStage, hm] at h
    exact Option.noConfusion h
  | some s =>
    cases hp : s.IsCompleteFuncResult with
    | none =>
      simp only [runStage, hm, hp] at h
      exact Option.noConfusion h
    | some b =>
      cases b with
      | true =>
        simp only [runStage, hm, hp, Option.some_inj] at h
        subst h
        exact ⟨rfl, rfl⟩
      | false =>
        simp only [runStage, hm, hp, Option.some_inj] at h
        subst h
        exact ⟨rfl, rfl⟩

/-- Update on a stage-complete message never appends to the command log, and
only changes the written file to what writeCommandLogFile produces from the
current command log. -/
theorem update_log_inv (ce : Option String) (now : String)
    (st st2 : RunState) (c : Cmd)
    (h : Update ce now .stageComplete st = some (st2, c)) :
    st2.commandLog = st.commandLog ∧
    (st2.fileContent = st.fileContent ∨
      ∃ e : String, st2.fileContent =
        (writeCommandLogFile ce now st.commandLog e).2) := by
  cases hm : st.stages[st.stageIndex]? with
  | none =>
    simp only [Update, hm] at h
    exact Option.noConfusion h
  | some s =>
    cases hE : s.Error with
    | some e =>
      simp only [Update, hm, hE, Option.some_inj, Prod.mk.injEq] at h
      rw [← h.1]
      exact ⟨rfl, Or.inr ⟨e, rfl⟩⟩
    | none =>
      simp only [Update, hm, hE, List.length_set] at h
      by_cases hlast : st.stageIndex + 1 ≥ st.stages.length
      · rw [if_pos hlast] at h
        simp only [Option.some_inj, Prod.mk.injEq] at h
        rw [← h.1]
        exact ⟨rfl, Or.inl rfl⟩
      · rw [if_neg hlast] at h
        simp only [Option.some_inj, Prod.mk.injEq] at h
        rw [← h.1]
        exact ⟨rfl, Or.inl rfl⟩

/-- Across a whole drive loop the command log is never appended to, and the
written file can only be a writeCommandLogFile artifact built from that same
command log. -/
theorem loop_log_inv (ce : Option String) (now : String) :
    ∀ (fuel : Nat) (st : RunState),
      (loop ce now fuel st).2.commandLog = st.commandLog ∧
      ((loop ce now fuel st).2.fileContent = st.fileContent ∨
        ∃ e : String, (loop ce now fuel st).2.fileContent =
          (writeCommandLogFile ce now st.commandLog e).2) := by
  intro fuel
  induction fuel with
  | zero =>
    intro st
    exact ⟨rfl, Or.inl rfl⟩
  | succ fuel ih =>
    intro st
    cases hrs : runStage st with
    | none =>
      simp [loop, hrs]
    | some st1 =>
      obtain ⟨hcl1, hfc1⟩ := runStage_log_inv st st1 hrs
      cases hup : Update ce now .stageComplete st1 with
      | none =>
        simp only [loop, hrs, hup]
        exact ⟨hcl1, Or.inl hfc1⟩
      | some p =>
        obtain ⟨st2, c⟩ := p
        obtain ⟨hcl2, hfc2⟩ := update_log_inv ce now st1 st2 c hup
        have hcl12 : st2.commandLog = st.commandLog := hcl2.trans hcl1
        have hfc12 : st2.fileContent = st.fileContent ∨
            ∃ e : String, st2.fileContent =
              (writeCommandLogFile ce now st.commandLog e).2 := by
          rcases hfc2 with hfc2 | ⟨e, hfc2⟩
          · exact Or.inl (hfc2.trans hfc1)
          · rw [hcl1] at hfc2
            exact Or.inr ⟨e, hfc2⟩
        cases c with
        | quit =>
          simp only [loop, hrs, hup]
          exact ⟨hcl12, hfc12⟩
        | runStageC =>
          simp only [loop, hrs, hup]
          obtain ⟨hcl3, hfc3⟩ := ih st2
          refine ⟨hcl3.trans hcl12, ?_⟩
          rcases hfc3 with hfc3 | ⟨e, hfc3⟩
          · rcases hfc12 with hfc12 | ⟨e, hfc12⟩
            · exact Or.inl (hfc3.trans hfc12)
            · exact Or.inr ⟨e, hfc3.trans hfc12⟩
          · rw [hcl12] at hfc3
            exact Or.inr ⟨e, hfc3⟩
        | tickC =>
          simp only [loop, hrs, hup]
          exact ⟨hcl12, hfc12⟩
        | noCmd =>
          simp only [loop, hrs, hup]
          exact ⟨hcl12, hfc12⟩

/-- Claim C10: the command log starts empty and is never appended to on any
execution path (logCommand has no callers in the program), so any failure log
the run ever writes is the writeCommandLogFile artifact over the empty audit
log — its steps-taken section enumerates zero entries. -/
theorem commandLog_never_appended (ce : Option String) (now : String)
    (L : List Stage) :
    (initState L).commandLog = [] ∧
    (run ce now L).2.commandLog = [] ∧
    (∀ c : String, (run ce now L).2.fileContent = some c →
      ∃ e : String, c = writeCommandLogFileContent now [] e) := by
  obtain ⟨hcl, hfc⟩ := loop_log_inv ce now (L.length + 1)
    ⟨L, 0, [], [], 0, [], none, none, 0⟩
  refine ⟨rfl, ?_, ?_⟩
  · rw [run_eq_loop]
    exact hcl
  · intro c hc
    rw [run_eq_loop] at hc
    rcases hfc with hfc | ⟨e, hfc⟩
    · rw [hc] at hfc
      exact Option.noConfusion hfc
    · rw [hc] at hfc
      cases ce with
      | some m =>
        simp [writeCommandLogFile] at hfc
      | none =>
        simp only [writeCommandLogFile, Option.some_inj] at hfc
        exact ⟨e, hfc⟩

set_option maxRecDepth 10000 in
/-- Witness for commandLog_never_appended: the concrete failing run writes
the artifact over the empty audit log. -/
theorem commandLog_never_appended_witness :
    (run none "t" [failW]).2.commandLog = [] ∧
    ∃ e : String, writeCommandLogFileContent "t" [] "boom" =
      writeCommandLogFileContent "t" [] e := by
  have h := commandLog_never_appended none "t" [failW]
  exact ⟨h.2.1, h.2.2 (writeCommandLogFileContent "t" [] "boom") (by decide)⟩
